import Mathlib

/-!
Shallow embedding of the RAMPAGE peak caller `rampage/call_peak.py`.

Conventions of the embedding:
* tab-delimited records are modelled by structures holding their parsed
  fields (the source splits each line on whitespace and converts fields
  with `int`/`float`; integer fields are `ℤ`, decimal fields `ℚ` or `ℝ`);
* the indexed (tabix) readers, the `Interval` merger of `seqlib`, and the
  numeric routines of numpy/scipy are external collaborators of the script;
  they are modelled from the specification and marked as such below;
* Python generators become functions returning lists, exceptions become
  `Option`/`Except` results.
-/

namespace CallPeak

/-- One line of `rampage_link.bed` as read by `assign_peak`
(`l.split()[1:6]` gives start, end, name, score, strand; name and score
are never used and are omitted). -/
structure BedRecord where
  chrom : String
  start : ℤ
  stop : ℤ
  strand : String
deriving DecidableEq

/-- One line of a 5′-end peak file (`rampage_*_5end_fseq.bed`): chrom,
start, end, name, value; `filter_peak` reads field 4 as a float. -/
structure PeakRec where
  chrom : String
  start : ℤ
  stop : ℤ
  name : String
  value : ℚ
deriving DecidableEq

/-- One line of a 5′-end tag file (`rampage_*_5end.bed`); `cal_height`
uses field 1 (start), fetching uses chrom/start/end. -/
structure TagRec where
  chrom : String
  start : ℤ
  stop : ℤ
deriving DecidableEq

/-- One row of the flat GenePred table: `line.split()[:5]` =
gene_id, chrom, strand, start, end. -/
structure Row where
  gene_id : String
  chrom : String
  strand : String
  start : ℤ
  stop : ℤ
deriving DecidableEq

/-- The tab-joined gene record `'%s\x7ct%s\x7ct%d\x7ct%d\x7ct%s' % (gname, gchr,
gstart, gend, gstrand)` modelled by its five fields (the formatting and the
later `gene_info.split()` are mutually inverse). -/
structure GeneInfo where
  id : String
  chrom : String
  start : ℤ
  stop : ℤ
  strand : String
deriving DecidableEq

/-- A gene of the gffutils database together with its child transcripts
(start/end pairs), as consumed by the GTF branch of `parse_gene`. -/
structure GtfGene where
  id : String
  seqid : String
  strand : String
  start : ℤ
  stop : ℤ
  transcripts : List (ℤ × ℤ)
deriving DecidableEq

/-- A merged interval of the external `Interval` class: start, stop and the
label positions carried along (the source stores each label as `str(pos)`;
the decimal string and the integer determine each other, so labels are kept
as integers). -/
structure Iv where
  start : ℤ
  stop : ℤ
  labels : List ℤ
deriving DecidableEq

/-- The chromosome-name filter `chrom.startswith('chr')`, expressed on the
character list of the string. -/
def startsWithChr (s : String) : Bool := decide (s.data.take 3 = ['c', 'h', 'r'])

/-- Ordering of intervals by start coordinate, used to sort before merging. -/
def ivLE (a b : Iv) : Prop := a.start ≤ b.start

instance : DecidableRel ivLE := fun a b => inferInstanceAs (Decidable (a.start ≤ b.start))

/-- One merging step: absorb `e` into the interval at the head of the
accumulator when it overlaps or touches it, else start a new interval. -/
def insertMerge (acc : List Iv) (e : Iv) : List Iv :=
  match acc with
  | [] => [e]
  | cur :: prev =>
      if e.start ≤ cur.stop then ⟨cur.start, max cur.stop e.stop, cur.labels ++ e.labels⟩ :: prev
      else e :: cur :: prev

/-- Modelled from the spec: the Interval Merger (`Interval(...)` of the
external `interval` module, not under `src/`): sort by start, combine
overlapping/touching intervals into a minimal covering set, concatenating
the labels of merged members. -/
def mergeIvs (l : List Iv) : List Iv :=
  ((List.insertionSort ivLE l).foldl insertMerge []).reverse

/-- Modelled from the spec: `Interval.mapto([pos, pos], mergedSet)`
(`map_point` of §4.1, external to `src/`): the merged intervals whose
half-open span `[start, stop)` contains the point. -/
def mapto (pos : ℤ) (merged : List Iv) : List Iv :=
  merged.filter (fun iv => decide (iv.start ≤ pos ∧ pos < iv.stop))

/-- Does a record spanning `[rlo, rhi)` overlap the query `[qlo, qhi)`? -/
def overlapped (qlo qhi rlo rhi : ℤ) : Bool := rlo < qhi && qlo < rhi

/-- Modelled from the spec: the indexed reader query
`pysam.TabixFile(...).fetch(chrom, start, end)` (external to `src/`):
all records of the file on `chrom` overlapping the queried span.  The
`chrom not in contigs` guard of `assign_peak` is subsumed: a chromosome
absent from the file yields no records. -/
def fetchBed (recs : List BedRecord) (chrom : String) (lo hi : ℤ) : List BedRecord :=
  recs.filter (fun r => decide (r.chrom = chrom) && overlapped lo hi r.start r.stop)

/-- Modelled from the spec: tabix fetch over a 5′-end peak file. -/
def fetchPeaks (recs : List PeakRec) (chrom : String) (lo hi : ℤ) : List PeakRec :=
  recs.filter (fun r => decide (r.chrom = chrom) && overlapped lo hi r.start r.stop)

/-- Modelled from the spec: tabix fetch over a 5′-end tag file. -/
def fetchTags (recs : List TagRec) (chrom : String) (lo hi : ℤ) : List TagRec :=
  recs.filter (fun r => decide (r.chrom = chrom) && overlapped lo hi r.start r.stop)

/-- The positional checks of the `assign_peak` loop body for an alignment
with 5′ end `end5` and 3′ read end `read3`: reject if `read3` leaves the
gene body, reject if `end5` is farther than `prom` from the gene, else
emit the window `[end5 - 10, end5 + 10]`. -/
def checkWindow (g_start g_end prom end5 read3 : ℤ) : Option (ℤ × ℤ) :=
  if read3 < g_start ∨ read3 > g_end then none
  else if end5 < g_start - prom ∨ end5 > g_end + prom then none
  else some (end5 - 10, end5 + 10)

/-- The body of the `for l in rampagef.fetch(...)` loop of `assign_peak`:
on a `+` gene, skip `-` alignments and take end5/read3 from start/end;
otherwise skip `+` alignments and take them swapped. -/
def assign_one (g_start g_end : ℤ) (g_strand : String) (prom : ℤ) (l : BedRecord) :
    Option (ℤ × ℤ) :=
  if g_strand = "+" then
    if l.strand = "-" then none
    else checkWindow g_start g_end prom l.start l.stop
  else
    if l.strand = "+" then none
    else checkWindow g_start g_end prom l.stop l.start

/-- `assign_peak`: collect the candidate windows of all fetched alignments,
in file order. -/
def assign_peak (rampage : List BedRecord) (g_chrom : String) (g_start g_end : ℤ)
    (g_strand : String) (prom : ℤ) : List (ℤ × ℤ) :=
  (fetchBed rampage g_chrom g_start g_end).filterMap (assign_one g_start g_end g_strand prom)

/-- The count of the most common element of a list
(`Counter(sites).most_common(1)[0][1]`); 0 on the empty list, where the
source raises instead (see `cal_height`). -/
def maxMult (l : List ℤ) : ℕ := (l.map (fun x => l.count x)).foldr max 0

/-- `cal_height`: the tag records of `[peak.start, peak.end + 1)` give the
site list; the height is the most common site's multiplicity and the total
is the number of sites.  `most_common(1)[0]` raises `IndexError` on an
empty site list, modelled as `none`. -/
def cal_height (p : PeakRec) (tags : List TagRec) : Option (ℕ × ℕ) :=
  let sites := (fetchTags tags p.chrom p.start (p.stop + 1)).map (fun r => r.start)
  if sites.isEmpty then none else some (maxMult sites, sites.length)

/-- The inner loop of `fetch_peak` over the peaks fetched for one merged
window: compute each peak's height, skip it when `height < minh`, else add
`(record, total)` to the set (Python `set.add`, modelled as a nodup list
insert).  A `cal_height` failure aborts. -/
def fetchPeakInner (tags : List TagRec) (minh : ℤ) :
    List PeakRec → List (PeakRec × ℕ) → Option (List (PeakRec × ℕ))
  | [], acc => some acc
  | p :: ps, acc =>
      match cal_height p tags with
      | none => none
      | some ht =>
          fetchPeakInner tags minh ps (if (ht.1 : ℤ) < minh then acc else acc.insert (p, ht.2))

/-- The outer loop of `fetch_peak` over the merged candidate windows. -/
def fetchPeakOuter (peak5 : List PeakRec) (tags : List TagRec) (chrom : String) (minh : ℤ) :
    List Iv → List (PeakRec × ℕ) → Option (List (PeakRec × ℕ))
  | [], acc => some acc
  | loc :: locs, acc =>
      match fetchPeakInner tags minh (fetchPeaks peak5 chrom loc.start loc.stop) acc with
      | none => none
      | some acc2 => fetchPeakOuter peak5 tags chrom minh locs acc2

/-- `fetch_peak`: merge the candidate windows (`Interval(peak_loc)`), query
the 5′-end peak index over each merged window and keep the peaks passing
the height filter. -/
def fetch_peak (peak5 : List PeakRec) (tags : List TagRec) (peak_loc : List (ℤ × ℤ))
    (chrom : String) (minh : ℤ) : Option (List (PeakRec × ℕ)) :=
  fetchPeakOuter peak5 tags chrom minh (mergeIvs (peak_loc.map (fun w => ⟨w.1, w.2, []⟩))) []

/-- The loop state of the GenePred branch of `parse_gene`: current gene
name, span, chromosome, strand and accumulated promoter windows. -/
structure PGState where
  gname : String
  gstart : ℤ
  gend : ℤ
  gchr : String
  gstrand : String
  gpromoter : List Iv
deriving DecidableEq

/-- Lines 127-133 of `parse_gene`: the promoter window of one table row,
built from the 1-based start (`int(start) + 1`) on `+` rows and from the
end on other rows, flanked by `prom` and labelled with the TSS position. -/
def promEntry (prom : ℤ) (r : Row) : Iv :=
  if r.strand = "+" then ⟨r.start + 1 - prom, r.start + 1 + prom, [r.start + 1]⟩
  else ⟨r.stop - prom, r.stop + prom, [r.stop]⟩

/-- A `yield gene_info, gpromoter, gstrand` of `parse_gene`: the gene
record, the merged promoter set and the gene strand. -/
def flushState (s : PGState) : GeneInfo × List Iv × String :=
  (⟨s.gname, s.gchr, s.gstart, s.gend, s.gstrand⟩, mergeIvs s.gpromoter, s.gstrand)

/-- The GenePred loop of `parse_gene` (lines 104-138): skip rows without
the `chr` prefix; on an unchanged gene (or the very first row) extend the
span by `min`/`max`, on a gene change yield the pending gene and restart;
every kept row appends its promoter window; the `for ... else` clause
yields the pending gene when the input ends. -/
def pgLoop (prom : ℤ) (s : PGState) : List Row → List (GeneInfo × List Iv × String)
  | [] => [flushState s]
  | r :: rest =>
      if ¬ startsWithChr r.chrom then pgLoop prom s rest
      else
        if s.gname = r.gene_id ∨ s.gname = "" then
          if s.gname = "" then
            pgLoop prom
              ⟨r.gene_id, r.start + 1, r.stop, r.chrom, r.strand,
                s.gpromoter ++ [promEntry prom r]⟩ rest
          else
            pgLoop prom
              { s with
                gstart := if r.start + 1 < s.gstart then r.start + 1 else s.gstart,
                gend := if r.stop > s.gend then r.stop else s.gend,
                gpromoter := s.gpromoter ++ [promEntry prom r] } rest
        else
          flushState s ::
            pgLoop prom
              ⟨r.gene_id, r.start + 1, r.stop, r.chrom, r.strand, [promEntry prom r]⟩ rest

/-- The GenePred (`--ref`) variant of `parse_gene`. -/
def parse_gene_ref (rows : List Row) (prom : ℤ) : List (GeneInfo × List Iv × String) :=
  pgLoop prom ⟨"", 0, 0, "", "", []⟩ rows

/-- The GTF/database branch of `parse_gene` (lines 139-157): genes without
the `chr` prefix are skipped; for a kept gene the record and the merged
promoter windows of its transcripts are built (lines 143-156), but the
`yield` at line 157 names `gstrand`, a variable assigned only in the
GenePred branch, so iterating the generator raises `NameError` at the
first kept gene, modelled as `Except.error`. -/
def parse_gene_gtf (prom : ℤ) : List GtfGene → Except String (List (GeneInfo × List Iv × String))
  | [] => .ok []
  | g :: rest =>
      if ¬ startsWithChr g.seqid then parse_gene_gtf prom rest
      else
        let _gene_info : GeneInfo := ⟨g.id, g.seqid, g.start, g.stop, g.strand⟩
        let _gpromoter : List Iv :=
          mergeIvs (g.transcripts.map (fun t =>
            if g.strand = "+" then ⟨t.1 - prom, t.1 + prom, [t.1]⟩
            else ⟨t.2 - prom, t.2 + prom, [t.2]⟩))
        .error "NameError: name gstrand is not defined"

/-- Specification-side view of the flat table: split the kept rows into
maximal runs of equal gene id (first row of the run kept separately). -/
def geneGroups : List Row → List (Row × List Row)
  | [] => []
  | r :: rest =>
      (r, rest.takeWhile (fun x => decide (x.gene_id = r.gene_id))) ::
        geneGroups (rest.dropWhile (fun x => decide (x.gene_id = r.gene_id)))
termination_by l => l.length
decreasing_by
  have h := (List.dropWhile_sublist (fun x => decide (x.gene_id = r.gene_id)) (l := rest)).length_le
  simp only [List.length_cons]
  omega

/-- Specification-side view of one gene group: id, chromosome and strand of
the first row, start the minimum converted start (`int(start) + 1`) and end
the maximum end over all rows of the group. -/
def specGene (r : Row) (g : List Row) : GeneInfo :=
  ⟨r.gene_id, r.chrom,
    g.foldl (fun a x => min a (x.start + 1)) (r.start + 1),
    g.foldl (fun a x => max a x.stop) r.stop,
    r.strand⟩

/-- The span update of the unchanged-gene branch of `parse_gene`
(lines 116-117). -/
def updSpan (s : PGState) (r : Row) : PGState :=
  { s with
    gstart := if r.start + 1 < s.gstart then r.start + 1 else s.gstart,
    gend := if r.stop > s.gend then r.stop else s.gend }

/-- The gene record held in the loop state. -/
def giOf (s : PGState) : GeneInfo := ⟨s.gname, s.gchr, s.gstart, s.gend, s.gstrand⟩

/-- Modelled from the spec: `np.mean` (external): the arithmetic mean. -/
noncomputable def npMean (l : List ℝ) : ℝ := l.sum / l.length

/-- Modelled from the spec: `np.var` (external): the population variance,
the mean of the squared deviations from the mean. -/
noncomputable def npVar (l : List ℝ) : ℝ :=
  (l.map (fun x => (x - npMean l) ^ 2)).sum / l.length

/-- `cal_expression`: the 3′-end expression values fetched over the gene
body give `(0, 0)` when empty, else the mean and
`math.sqrt(np.var(expression) / expression.size)`. -/
noncomputable def cal_expression (expression : List ℝ) : ℝ × ℝ :=
  if expression.length = 0 then (0, 0)
  else (npMean expression, Real.sqrt (npVar expression / expression.length))

/-- Modelled from the spec: the standard normal cumulative distribution
function Φ (`scipy.stats.norm.cdf`, external). -/
noncomputable def normal_cdf (z : ℝ) : ℝ :=
  (Real.sqrt (2 * Real.pi))⁻¹ * ∫ t in Set.Iic z, Real.exp (-(t ^ 2) / 2)

/-- Modelled from the spec: `scipy.stats.norm.sf` (external), the
upper-tail survival function 1 − Φ of a standard normal. -/
noncomputable def norm_sf (z : ℝ) : ℝ := 1 - normal_cdf z

/-- `wald_test`: z-score of the value against the gene baseline and its
upper-tail p-value. -/
noncomputable def wald_test (value mean var : ℝ) : ℝ × ℝ :=
  ((value - mean) / var, norm_sf ((value - mean) / var))

/-- The running-best state of the `fetch_expression` loop: the first label
of `m :: l` attaining the minimal distance to `pos` (a strictly smaller
distance is needed to displace the incumbent). -/
def firstMinAcc (pos m : ℤ) : List ℤ → ℤ
  | [] => m
  | p :: rest => if |pos - p| < |pos - m| then firstMinAcc pos p rest else firstMinAcc pos m rest

/-- The body of the nearest-promoter loop of `fetch_expression`
(lines 274-279): replace the incumbent whenever a strictly smaller
distance appears (`nearest_d = np.inf` is modelled as `none`). -/
def nearStep (pos : ℤ) (acc : String × Option ℤ) (ploc : ℤ) : String × Option ℤ :=
  match acc.2 with
  | none => (toString ploc, some |pos - ploc|)
  | some nd => if |pos - ploc| < nd then (toString ploc, some |pos - ploc|) else acc

/-- The nearest-promoter loop of `fetch_expression` (lines 272-280),
starting from `nearest_p = ''`, `nearest_d = inf`. -/
def nearestLoop (pos : ℤ) (labels : List ℤ) : String :=
  (labels.foldl (nearStep pos) ("", none)).1

/-- `fetch_expression`: map the peak midpoint into the merged promoter set;
`"None"` without a covering interval, else the nearest label position of
the first covering interval (`promoter_list[0][2:]`). -/
def fetch_expression (gpromoter : List Iv) (pos : ℤ) : String :=
  match mapto pos gpromoter with
  | [] => "None"
  | iv :: _ => nearestLoop pos iv.labels

/-- One output row of `filter_peak`:
`[chrom, start, end, einfo, total, str(value), str(e_mean), str(z_score),
str(p_value)]`, modelled by its fields. -/
structure ScoredRow where
  chrom : String
  start : ℤ
  stop : ℤ
  einfo : String
  total : ℕ
  value : ℝ
  e_mean : ℝ
  z : ℝ
  p : ℝ

/-- `filter_peak`: score every surviving peak: Wald test of its value
against the gene baseline, truncating-division midpoint
(`int((start + end) / 2)` truncates toward zero, `Int.div`), nearest
promoter of the midpoint; each row is paired with its p-value. -/
noncomputable def filter_peak (peaks : List (PeakRec × ℕ)) (e_mean var : ℝ)
    (gpromoter : List Iv) : List (ScoredRow × ℝ) :=
  peaks.map (fun pt =>
    let value : ℝ := (pt.1.value : ℝ)
    let zp := wald_test value e_mean var
    let pos := Int.tdiv (pt.1.start + pt.1.stop) 2
    (⟨pt.1.chrom, pt.1.start, pt.1.stop, fetch_expression gpromoter pos, pt.2,
      value, e_mean, zp.1, zp.2⟩, zp.2))

open Classical in
/-- `call_peak_for_gene`: the per-gene task.  The Python `(None, None)`
results are `some none`; an uncaught exception inside `fetch_peak` is
`none`.  The gene record string is modelled by `GeneInfo`, the fetched
3′-end expression values are passed as a list. -/
noncomputable def call_peak_for_gene (rampage : List BedRecord) (peak5 : List PeakRec)
    (tags : List TagRec) (expression : List ℝ) (gi : GeneInfo) (gp : List Iv)
    (prom minh : ℤ) : Option (Option (GeneInfo × List (ScoredRow × ℝ))) :=
  if assign_peak rampage gi.chrom gi.start gi.stop gi.strand prom = [] then some none
  else
    match fetch_peak peak5 tags (assign_peak rampage gi.chrom gi.start gi.stop gi.strand prom)
        gi.chrom minh with
    | none => none
    | some peaks =>
        if (cal_expression expression).1 = 0 then some none
        else if (cal_expression expression).2 = 0 then some none
        else
          some (some (gi,
            filter_peak peaks (cal_expression expression).1 (cal_expression expression).2 gp))

/-- The ascending order on p-value indices used to model `np.argsort`:
compare values, break ties by the original index. -/
def pvalLE (l : List ℚ) (i j : ℕ) : Prop :=
  l.getD i 0 < l.getD j 0 ∨ (l.getD i 0 = l.getD j 0 ∧ i ≤ j)

instance (l : List ℚ) : DecidableRel (pvalLE l) := fun i j =>
  inferInstanceAs (Decidable (l.getD i 0 < l.getD j 0 ∨ (l.getD i 0 = l.getD j 0 ∧ i ≤ j)))

/-- Modelled from the spec: `np.array(pvalue).argsort()` (external): the
indices `0 .. n-1` sorted by ascending p-value; numpy leaves the order of
tied values unspecified, the model resolves ties by the original index. -/
def argsort (l : List ℚ) : List ℕ := List.insertionSort (pvalLE l) (List.range l.length)

/-- The rank dictionary `{p: r for r, p in enumerate(argsort)}`: the
position of index `i` in the argsort output. -/
def rankOf (l : List ℚ) (i : ℕ) : ℕ := (argsort l).indexOf i

/-- Lines 90-92 of `call_peak`:
`qvalue = [p * total_num / (rank[n] + 1) for n, p in enumerate(pvalue)]`
(the enumeration is modelled by mapping over the index range). -/
def qvalue (pvalue : List ℚ) : List ℚ :=
  (List.range pvalue.length).map
    (fun n => pvalue.getD n 0 * (pvalue.length : ℚ) / ((rankOf pvalue n : ℚ) + 1))

/-- Strict version of `pvalLE`: index `i` comes strictly before index `j`
in the ascending order of p-values with ties broken by index. -/
def pvalLT (l : List ℚ) (i j : ℕ) : Prop :=
  l.getD i 0 < l.getD j 0 ∨ (l.getD i 0 = l.getD j 0 ∧ i < j)

instance (l : List ℚ) : DecidableRel (pvalLT l) := fun i j =>
  inferInstanceAs (Decidable (l.getD i 0 < l.getD j 0 ∨ (l.getD i 0 = l.getD j 0 ∧ i < j)))

instance (l : List ℚ) : IsTotal ℕ (pvalLE l) := by
  constructor
  intro i j
  rcases lt_trichotomy (l.getD i 0) (l.getD j 0) with h | h | h
  · exact Or.inl (Or.inl h)
  · rcases Nat.le_total i j with hij | hij
    · exact Or.inl (Or.inr ⟨h, hij⟩)
    · exact Or.inr (Or.inr ⟨h.symm, hij⟩)
  · exact Or.inr (Or.inl h)

instance (l : List ℚ) : IsTrans ℕ (pvalLE l) := by
  constructor
  intro i j k hij hjk
  rcases hij with h1 | ⟨h1, h1'⟩ <;> rcases hjk with h2 | ⟨h2, h2'⟩
  · exact Or.inl (h1.trans h2)
  · exact Or.inl (h2 ▸ h1)
  · exact Or.inl (h1 ▸ h2)
  · exact Or.inr ⟨h1.trans h2, h1'.trans h2'⟩

/-! ## Claim theorems -/

/-- C5: for a tag alignment overlapping the gene body that passes the
strand filter, `assign_peak` takes end5 = alignment start and
read3 = alignment end on a `+` gene and the swapped assignment otherwise;
it rejects the alignment when read3 leaves `[gene_start, gene_end]` or
end5 leaves `[gene_start - flank, gene_end + flank]`, and otherwise emits
exactly the window `[end5 - 10, end5 + 10]`. -/
theorem claim_C5_candidate_window : ∀ (gs ge prom : ℤ) (l : BedRecord),
    (l.strand ≠ "-" →
      assign_one gs ge "+" prom l =
        if gs ≤ l.stop ∧ l.stop ≤ ge ∧ gs - prom ≤ l.start ∧ l.start ≤ ge + prom
        then some (l.start - 10, l.start + 10) else none) ∧
    (l.strand ≠ "+" →
      assign_one gs ge "-" prom l =
        if gs ≤ l.start ∧ l.start ≤ ge ∧ gs - prom ≤ l.stop ∧ l.stop ≤ ge + prom
        then some (l.stop - 10, l.stop + 10) else none) ∧
    (∀ (rampage : List BedRecord) (chrom gstrand : String),
      assign_peak rampage chrom gs ge gstrand prom =
        (fetchBed rampage chrom gs ge).filterMap (assign_one gs ge gstrand prom)) := by
  intro gs ge prom l
  refine ⟨?_, ?_, fun _ _ _ => rfl⟩
  · intro h
    have e : assign_one gs ge "+" prom l = checkWindow gs ge prom l.start l.stop := by
      unfold assign_one
      rw [if_pos rfl, if_neg h]
    rw [e]
    unfold checkWindow
    split_ifs <;> first | rfl | omega
  · intro h
    have e : assign_one gs ge "-" prom l = checkWindow gs ge prom l.stop l.start := by
      unfold assign_one
      rw [if_neg (by decide), if_neg h]
    rw [e]
    unfold checkWindow
    split_ifs <;> first | rfl | omega

/-- C5 witness: a sense alignment at 150-180 inside a `+` gene 100-200
yields the window [140, 160]. -/
theorem claim_C5_candidate_window_witness :
    assign_one 100 200 "+" 1000 ⟨"chr1", 150, 180, "+"⟩ = some (140, 160) := by
  have h := (claim_C5_candidate_window 100 200 1000 ⟨"chr1", 150, 180, "+"⟩).1 (by decide)
  rw [h]
  decide

/-- C6 counterexample: an alignment whose strand field `.` disagrees with
the `+` gene strand is not discarded: it produces the candidate window
[140, 160], refuting the claim that any strand disagreement (including
strand values other than `+`/`-`) is filtered out. -/
theorem claim_C6_counterexample :
    ("." : String) ≠ "+" ∧
      assign_peak [⟨"chr1", 150, 180, "."⟩] "chr1" 100 200 "+" 1000 = [(140, 160)] :=
  ⟨by decide, by decide⟩

/-- C6 (amended): an alignment is discarded by the strand filter exactly
when its strand field is the opposite symbol: `-` against a `+` gene, or
`+` against a non-`+` gene; such an alignment contributes no candidate
locus.  Alignments with any other strand value pass the filter. -/
theorem claim_C6_opposite_strand_discarded :
    ∀ (l : BedRecord) (gs ge prom : ℤ) (gstrand : String),
      (gstrand = "+" ∧ l.strand = "-") ∨ (gstrand ≠ "+" ∧ l.strand = "+") →
      assign_one gs ge gstrand prom l = none ∧
        ∀ (rest : List BedRecord) (chrom : String),
          assign_peak (l :: rest) chrom gs ge gstrand prom =
            assign_peak rest chrom gs ge gstrand prom := by
  intro l gs ge prom gstrand h
  have h1 : assign_one gs ge gstrand prom l = none := by
    unfold assign_one
    rcases h with ⟨hg, hl⟩ | ⟨hg, hl⟩
    · subst hg
      rw [if_pos rfl, if_pos hl]
    · rw [if_neg hg, if_pos hl]
  refine ⟨h1, ?_⟩
  intro rest chrom
  unfold assign_peak fetchBed
  rw [List.filter_cons]
  by_cases hc : (decide (l.chrom = chrom) && overlapped gs ge l.start l.stop) = true
  · simp only [hc, if_true, List.filterMap_cons, h1]
  · simp only [hc, if_false, Bool.false_eq_true]

/-- C6 witness: a `-` alignment against a `+` gene is dropped and leaves
the candidate list unchanged. -/
theorem claim_C6_opposite_strand_discarded_witness :
    assign_one 100 200 "+" 1000 ⟨"chr1", 150, 180, "-"⟩ = none ∧
      assign_peak [⟨"chr1", 150, 180, "-"⟩] "chr1" 100 200 "+" 1000 =
        assign_peak [] "chr1" 100 200 "+" 1000 := by
  have h := claim_C6_opposite_strand_discarded ⟨"chr1", 150, 180, "-"⟩ 100 200 1000 "+"
    (Or.inl ⟨rfl, rfl⟩)
  exact ⟨h.1, h.2 [] "chr1"⟩

/-- C2: for a surviving peak with value v, gene mean m and dispersion
d ≠ 0, `wald_test` computes z = (v − m) / d and the p-value is the
standard normal upper tail 1 − Φ(z); at m = 10, d = 2, v = 14 it gives
z = 2 and p = 1 − Φ(2) (≈ 0.0228); `filter_peak` stores exactly these two
values in every output row. -/
theorem claim_C2_wald_test :
    (∀ value mean var : ℝ, var ≠ 0 →
      wald_test value mean var = ((value - mean) / var, 1 - normal_cdf ((value - mean) / var))) ∧
    wald_test 14 10 2 = (2, 1 - normal_cdf 2) ∧
    ∀ (peaks : List (PeakRec × ℕ)) (e_mean var : ℝ) (gp : List Iv),
      (filter_peak peaks e_mean var gp).map (fun r => (r.1.z, r.1.p)) =
        peaks.map (fun pt => wald_test (pt.1.value : ℝ) e_mean var) := by
  refine ⟨fun _ _ _ _ => rfl, ?_, ?_⟩
  · have h : ((14 : ℝ) - 10) / 2 = 2 := by norm_num
    unfold wald_test norm_sf
    rw [h]
  · intro peaks e_mean var gp
    unfold filter_peak
    rw [List.map_map]
    rfl

/-- C2 witness: the Wald test at value 14, mean 10, dispersion 2. -/
theorem claim_C2_wald_test_witness :
    wald_test 14 10 2 = ((14 - 10) / 2, 1 - normal_cdf ((14 - 10) / 2)) :=
  claim_C2_wald_test.1 14 10 2 (by norm_num)

/-- C3: the GenePred variant of `parse_gene` yields the
(gene record, merged promoter set, strand) triple, but the GTF/database
variant raises `NameError` at its first kept gene because the `yield` at
line 157 names `gstrand`, which is only ever assigned in the GenePred
branch: the two variants do not have the same output contract, although
the record built two lines earlier shows the intended strand value. -/
theorem claim_C3_gtf_variant_fails :
    parse_gene_gtf 1000 [⟨"g1", "chr1", "+", 100, 200, [(100, 200)]⟩] =
        .error "NameError: name gstrand is not defined" ∧
      parse_gene_ref [⟨"g1", "chr1", "+", 99, 200⟩] 1000 =
        [(⟨"g1", "chr1", 100, 200, "+"⟩, [⟨-900, 1100, [100]⟩], "+")] := by
  constructor
  · rfl
  · rfl

/-- C7: `cal_expression` returns (0, 0) on an empty 3′-end query, and
otherwise the arithmetic mean and sqrt(population variance / n); a single
record always yields dispersion 0, and whenever the dispersion is 0 the
gene task never returns output rows. -/
theorem claim_C7_degenerate_dispersion_excludes :
    cal_expression [] = (0, 0) ∧
    (∀ vals : List ℝ, vals ≠ [] →
      cal_expression vals = (npMean vals, Real.sqrt (npVar vals / vals.length))) ∧
    (∀ v : ℝ, (cal_expression [v]).2 = 0) ∧
    ∀ (rampage : List BedRecord) (peak5 : List PeakRec) (tags : List TagRec)
      (expression : List ℝ) (gi : GeneInfo) (gp : List Iv) (prom minh : ℤ)
      (g : GeneInfo) (rows : List (ScoredRow × ℝ)),
      (cal_expression expression).2 = 0 →
      call_peak_for_gene rampage peak5 tags expression gi gp prom minh ≠
        some (some (g, rows)) := by
  refine ⟨by unfold cal_expression; simp, ?_, ?_, ?_⟩
  · intro vals h
    unfold cal_expression
    rw [if_neg (by simpa [List.length_eq_zero] using h)]
  · intro v
    have h1 : npMean [v] = v := by simp [npMean]
    have h2 : npVar [v] = 0 := by simp [npVar, h1]
    simp [cal_expression, h2, Real.sqrt_zero]
  · intro rampage peak5 tags expression gi gp prom minh g rows h hq
    unfold call_peak_for_gene at hq
    by_cases hp : assign_peak rampage gi.chrom gi.start gi.stop gi.strand prom = []
    · rw [if_pos hp] at hq
      simp at hq
    · rw [if_neg hp] at hq
      cases hf : fetch_peak peak5 tags
          (assign_peak rampage gi.chrom gi.start gi.stop gi.strand prom) gi.chrom minh with
      | none => rw [hf] at hq; simp at hq
      | some peaks =>
          rw [hf] at hq
          dsimp only at hq
          by_cases h1 : (cal_expression expression).1 = 0
          · rw [if_pos h1] at hq
            simp at hq
          · rw [if_neg h1, if_pos h] at hq
            simp at hq

/-- C7 witness: a single 3′-end record gives dispersion 0 and the gene is
excluded even though candidate windows and peaks might exist. -/
theorem claim_C7_degenerate_dispersion_excludes_witness :
    call_peak_for_gene [] [] [] [5] ⟨"g1", "chr1", 100, 200, "+"⟩ [] 1000 3 ≠
      some (some (⟨"g1", "chr1", 100, 200, "+"⟩, [])) :=
  claim_C7_degenerate_dispersion_excludes.2.2.2 [] [] [] [5] ⟨"g1", "chr1", 100, 200, "+"⟩ []
    1000 3 ⟨"g1", "chr1", 100, 200, "+"⟩ []
    (claim_C7_degenerate_dispersion_excludes.2.2.1 5)

/-- `cal_height` succeeds exactly when the queried span holds a tag. -/
theorem cal_height_isSome (p : PeakRec) (tags : List TagRec) :
    (cal_height p tags).isSome ↔ fetchTags tags p.chrom p.start (p.stop + 1) ≠ [] := by
  unfold cal_height
  dsimp only
  split_ifs with h
  · simp only [Option.isSome_none, Bool.false_eq_true, false_iff, ne_eq, not_not]
    rw [List.isEmpty_iff, List.map_eq_nil_iff] at h
    exact h
  · simp only [Option.isSome_some, true_iff, ne_eq]
    intro hnil
    rw [List.isEmpty_iff, List.map_eq_nil_iff] at h
    exact h hnil

/-- The inner `fetch_peak` loop succeeds exactly when `cal_height`
succeeds on every fetched peak, whatever the accumulator. -/
theorem fetchPeakInner_isSome (tags : List TagRec) (minh : ℤ) :
    ∀ (ps : List PeakRec) (acc : List (PeakRec × ℕ)),
      (fetchPeakInner tags minh ps acc).isSome ↔ ∀ p ∈ ps, (cal_height p tags).isSome
  | [], acc => by simp [fetchPeakInner]
  | p :: ps, acc => by
      cases hc : cal_height p tags with
      | none =>
          simp only [fetchPeakInner, hc, Option.isSome_none, Bool.false_eq_true, false_iff]
          intro hall
          have := hall p (List.mem_cons_self p ps)
          rw [hc] at this
          cases this
      | some ht =>
          simp only [fetchPeakInner, hc, List.forall_mem_cons, Option.isSome_some, true_and]
          exact fetchPeakInner_isSome tags minh ps _

/-- The outer `fetch_peak` loop succeeds exactly when every queried peak
of every merged window has a computable height. -/
theorem fetchPeakOuter_isSome (peak5 : List PeakRec) (tags : List TagRec) (chrom : String)
    (minh : ℤ) :
    ∀ (locs : List Iv) (acc : List (PeakRec × ℕ)),
      (fetchPeakOuter peak5 tags chrom minh locs acc).isSome ↔
        ∀ loc ∈ locs, ∀ p ∈ fetchPeaks peak5 chrom loc.start loc.stop,
          (cal_height p tags).isSome
  | [], acc => by simp [fetchPeakOuter]
  | loc :: locs, acc => by
      cases hi : fetchPeakInner tags minh (fetchPeaks peak5 chrom loc.start loc.stop) acc with
      | none =>
          have h1 : ¬ ∀ p ∈ fetchPeaks peak5 chrom loc.start loc.stop,
              (cal_height p tags).isSome := by
            intro hall
            have := (fetchPeakInner_isSome tags minh _ acc).mpr hall
            rw [hi] at this
            cases this
          simp only [fetchPeakOuter, hi, Option.isSome_none, Bool.false_eq_true, false_iff,
            List.forall_mem_cons]
          intro hall
          exact h1 hall.1
      | some acc2 =>
          have h1 : ∀ p ∈ fetchPeaks peak5 chrom loc.start loc.stop, (cal_height p tags).isSome :=
            (fetchPeakInner_isSome tags minh _ acc).mp (by rw [hi]; rfl)
          have ih := fetchPeakOuter_isSome peak5 tags chrom minh locs acc2
          simp only [fetchPeakOuter, hi, List.forall_mem_cons]
          constructor
          · intro hs
            exact ⟨h1, ih.mp hs⟩
          · intro hall
            exact ih.mpr hall.2

/-- C10: the height computation is only defined when the queried span
`[peak.start, peak.end + 1)` holds at least one tag record (`cal_height`
fails on an empty collection instead of reporting height 0), so
`fetch_peak` is total exactly under the precondition that every queried
peak's span holds a tag record. -/
theorem claim_C10_cal_height_partiality :
    (∀ (p : PeakRec) (tags : List TagRec),
      cal_height p tags = none ↔ fetchTags tags p.chrom p.start (p.stop + 1) = []) ∧
    ∀ (peak5 : List PeakRec) (tags : List TagRec) (peak_loc : List (ℤ × ℤ))
      (chrom : String) (minh : ℤ),
      (fetch_peak peak5 tags peak_loc chrom minh).isSome ↔
        ∀ loc ∈ mergeIvs (peak_loc.map (fun w => ⟨w.1, w.2, []⟩)),
          ∀ p ∈ fetchPeaks peak5 chrom loc.start loc.stop,
            fetchTags tags p.chrom p.start (p.stop + 1) ≠ [] := by
  constructor
  · intro p tags
    rw [← Option.not_isSome_iff_eq_none, cal_height_isSome]
    simp
  · intro peak5 tags peak_loc chrom minh
    unfold fetch_peak
    rw [fetchPeakOuter_isSome]
    constructor
    · intro h loc hloc p hp
      exact (cal_height_isSome p tags).mp (h loc hloc p hp)
    · intro h loc hloc p hp
      exact (cal_height_isSome p tags).mpr (h loc hloc p hp)

/-- C10 witness: a concrete peak span holding a tag makes `fetch_peak`
succeed. -/
theorem claim_C10_cal_height_partiality_witness :
    (fetch_peak [⟨"chr1", 100, 110, "p", 5⟩] [⟨"chr1", 100, 101⟩] [(95, 115)] "chr1" 1).isSome :=
  (claim_C10_cal_height_partiality.2 [⟨"chr1", 100, 110, "p", 5⟩] [⟨"chr1", 100, 101⟩]
    [(95, 115)] "chr1" 1).mpr (by decide)

/-- Inserting the same element preserves list inclusion. -/
theorem insert_subset_insert {α : Type} [BEq α] [LawfulBEq α] (x : α) {l₁ l₂ : List α}
    (h : l₁ ⊆ l₂) : l₁.insert x ⊆ l₂.insert x := by
  intro y hy
  rw [List.mem_insert_iff] at hy ⊢
  rcases hy with hy | hy
  · exact Or.inl hy
  · exact Or.inr (h hy)

/-- Raising the height threshold in the inner `fetch_peak` loop, with a
smaller accumulator, keeps success and yields a subset. -/
theorem fetchPeakInner_anti (tags : List TagRec) {minh minh' : ℤ} (hm : minh ≤ minh') :
    ∀ (ps : List PeakRec) (acc acc' : List (PeakRec × ℕ)), acc' ⊆ acc →
      ∀ s, fetchPeakInner tags minh ps acc = some s →
        ∃ s', fetchPeakInner tags minh' ps acc' = some s' ∧ s' ⊆ s
  | [], acc, acc', hsub, s, hs => by
      refine ⟨acc', rfl, ?_⟩
      rw [fetchPeakInner] at hs
      exact (Option.some.inj hs) ▸ hsub
  | p :: ps, acc, acc', hsub, s, hs => by
      rw [fetchPeakInner] at hs ⊢
      cases hc : cal_height p tags with
      | none => rw [hc] at hs; cases hs
      | some ht =>
          rw [hc] at hs
          dsimp only at hs ⊢
          refine fetchPeakInner_anti tags hm ps _ _ ?_ s hs
          by_cases h1 : (ht.1 : ℤ) < minh
          · rw [if_pos h1, if_pos (lt_of_lt_of_le h1 hm)]
            exact hsub
          · rw [if_neg h1]
            by_cases h2 : (ht.1 : ℤ) < minh'
            · rw [if_pos h2]
              exact fun y hy => List.mem_insert_iff.mpr (Or.inr (hsub hy))
            · rw [if_neg h2]
              exact insert_subset_insert _ hsub

/-- Raising the height threshold in the outer `fetch_peak` loop, with a
smaller accumulator, keeps success and yields a subset. -/
theorem fetchPeakOuter_anti (peak5 : List PeakRec) (tags : List TagRec) (chrom : String)
    {minh minh' : ℤ} (hm : minh ≤ minh') :
    ∀ (locs : List Iv) (acc acc' : List (PeakRec × ℕ)), acc' ⊆ acc →
      ∀ s, fetchPeakOuter peak5 tags chrom minh locs acc = some s →
        ∃ s', fetchPeakOuter peak5 tags chrom minh' locs acc' = some s' ∧ s' ⊆ s
  | [], acc, acc', hsub, s, hs => by
      refine ⟨acc', rfl, ?_⟩
      rw [fetchPeakOuter] at hs
      exact (Option.some.inj hs) ▸ hsub
  | loc :: locs, acc, acc', hsub, s, hs => by
      rw [fetchPeakOuter] at hs ⊢
      cases hi : fetchPeakInner tags minh (fetchPeaks peak5 chrom loc.start loc.stop) acc with
      | none => rw [hi] at hs; cases hs
      | some acc2 =>
          rw [hi] at hs
          dsimp only at hs
          obtain ⟨acc2', hi', hsub2⟩ := fetchPeakInner_anti tags hm _ acc acc' hsub acc2 hi
          rw [hi']
          dsimp only
          exact fetchPeakOuter_anti peak5 tags chrom hm locs acc2 acc2' hsub2 s hs

/-- C9: for fixed candidate loci, tag records and peak records, the set of
peaks surviving the height filter is antitone in the minimum-height
threshold: raising the threshold never adds a surviving peak, lowering it
never removes one. -/
theorem claim_C9_height_filter_antitone :
    ∀ (peak5 : List PeakRec) (tags : List TagRec) (peak_loc : List (ℤ × ℤ))
      (chrom : String) (minh minh' : ℤ), minh ≤ minh' →
      ∀ s, fetch_peak peak5 tags peak_loc chrom minh = some s →
        ∃ s', fetch_peak peak5 tags peak_loc chrom minh' = some s' ∧ s' ⊆ s := by
  intro peak5 tags peak_loc chrom minh minh' hm s hs
  unfold fetch_peak at hs ⊢
  exact fetchPeakOuter_anti peak5 tags chrom hm _ [] [] (fun y hy => hy) s hs

/-- C9 witness: raising the threshold from 2 to 4 on a concrete input
keeps success and returns a subset of the surviving peaks. -/
theorem claim_C9_height_filter_antitone_witness :
    ∃ s', fetch_peak [⟨"chr1", 100, 110, "p", 5⟩]
        [⟨"chr1", 100, 101⟩, ⟨"chr1", 100, 101⟩, ⟨"chr1", 105, 106⟩] [(95, 115)] "chr1" 4 =
          some s' ∧ s' ⊆ [(⟨"chr1", 100, 110, "p", 5⟩, 3)] :=
  claim_C9_height_filter_antitone [⟨"chr1", 100, 110, "p", 5⟩]
    [⟨"chr1", 100, 101⟩, ⟨"chr1", 100, 101⟩, ⟨"chr1", 105, 106⟩] [(95, 115)] "chr1" 2 4
    (by decide) [(⟨"chr1", 100, 110, "p", 5⟩, 3)] (by decide)

/-- Unfolding `firstMinAcc` on a cons cell. -/
theorem firstMinAcc_cons (pos m p : ℤ) (l : List ℤ) :
    firstMinAcc pos m (p :: l) =
      if |pos - p| < |pos - m| then firstMinAcc pos p l else firstMinAcc pos m l := rfl

/-- The nearest-promoter fold, once primed with an incumbent, computes
`firstMinAcc`. -/
theorem nearStep_fold (pos : ℤ) :
    ∀ (l : List ℤ) (m : ℤ),
      l.foldl (nearStep pos) (toString m, some |pos - m|) =
        (toString (firstMinAcc pos m l), some |pos - firstMinAcc pos m l|)
  | [], m => rfl
  | p :: l, m => by
      rw [List.foldl_cons]
      have e : nearStep pos (toString m, some |pos - m|) p =
          if |pos - p| < |pos - m| then (toString p, some |pos - p|)
          else (toString m, some |pos - m|) := rfl
      rw [e]
      by_cases h : |pos - p| < |pos - m|
      · rw [if_pos h, nearStep_fold pos l p, firstMinAcc_cons, if_pos h]
      · rw [if_neg h, nearStep_fold pos l m, firstMinAcc_cons, if_neg h]

/-- `firstMinAcc` picks an element of `m :: l` of minimal distance. -/
theorem firstMinAcc_min (pos : ℤ) :
    ∀ (l : List ℤ) (m : ℤ),
      (firstMinAcc pos m l = m ∨ firstMinAcc pos m l ∈ l) ∧
      |pos - firstMinAcc pos m l| ≤ |pos - m| ∧
      ∀ q ∈ l, |pos - firstMinAcc pos m l| ≤ |pos - q|
  | [], m => by simp [firstMinAcc]
  | p :: l, m => by
      rw [firstMinAcc_cons]
      by_cases h : |pos - p| < |pos - m|
      · rw [if_pos h]
        obtain ⟨h1, h2, h3⟩ := firstMinAcc_min pos l p
        refine ⟨?_, le_trans h2 (le_of_lt h), ?_⟩
        · rcases h1 with h1 | h1
          · exact Or.inr (by rw [h1]; exact List.mem_cons_self p l)
          · exact Or.inr (List.mem_cons_of_mem p h1)
        · intro q hq
          rcases List.mem_cons.mp hq with rfl | hq
          · exact h2
          · exact h3 q hq
      · rw [if_neg h]
        obtain ⟨h1, h2, h3⟩ := firstMinAcc_min pos l m
        refine ⟨?_, h2, ?_⟩
        · rcases h1 with h1 | h1
          · exact Or.inl h1
          · exact Or.inr (List.mem_cons_of_mem p h1)
        · intro q hq
          rcases List.mem_cons.mp hq with rfl | hq
          · exact le_trans h2 (not_lt.mp h)
          · exact h3 q hq

/-- `firstMinAcc` is the first element of `m :: l` attaining the minimal
distance: `find?` with the minimality bound returns exactly it. -/
theorem firstMinAcc_find (pos : ℤ) :
    ∀ (l : List ℤ) (m : ℤ),
      (m :: l).find? (fun q => decide (|pos - q| ≤ |pos - firstMinAcc pos m l|)) =
        some (firstMinAcc pos m l)
  | [], m => by
      rw [show firstMinAcc pos m [] = m from rfl]
      rw [List.find?_cons_of_pos _ (by simp)]
  | p :: l, m => by
      rw [firstMinAcc_cons]
      by_cases h : |pos - p| < |pos - m|
      · rw [if_pos h]
        have hmin := (firstMinAcc_min pos l p).2.1
        have hneg : ¬ (|pos - m| ≤ |pos - firstMinAcc pos p l|) :=
          not_le.mpr (lt_of_le_of_lt hmin h)
        rw [List.find?_cons_of_neg _ (by simpa using hneg)]
        exact firstMinAcc_find pos l p
      · rw [if_neg h]
        have ih := firstMinAcc_find pos l m
        by_cases hm : |pos - m| ≤ |pos - firstMinAcc pos m l|
        · rw [List.find?_cons_of_pos _ (by simpa using hm)]
          rw [List.find?_cons_of_pos _ (by simpa using hm)] at ih
          exact ih
        · have hp : ¬ (|pos - p| ≤ |pos - firstMinAcc pos m l|) := by
            intro hle
            have h1 := not_le.mp hm
            have h2 := not_lt.mp h
            exact absurd (lt_of_le_of_lt hle h1) (not_lt.mpr h2)
          rw [List.find?_cons_of_neg _ (by simpa using hm),
            List.find?_cons_of_neg _ (by simpa using hp)]
          rw [List.find?_cons_of_neg _ (by simpa using hm)] at ih
          exact ih

/-- C8: `filter_peak` computes every peak's midpoint with Python's
truncating `int((start + end) / 2)` — equal to `floor((start + end) / 2)`
on the non-negative coordinates — and reports `"None"` when no merged
promoter interval covers it; otherwise it reports, among the label
positions of the covering interval, the one of minimal absolute distance,
ties resolved in favour of the first-encountered label. -/
theorem claim_C8_nearest_promoter :
    (∀ (peaks : List (PeakRec × ℕ)) (e_mean var : ℝ) (gp : List Iv),
      (filter_peak peaks e_mean var gp).map (fun r => r.1.einfo) =
        peaks.map (fun pt => fetch_expression gp (Int.tdiv (pt.1.start + pt.1.stop) 2))) ∧
    (∀ s t : ℤ, 0 ≤ s + t → Int.tdiv (s + t) 2 = ⌊((s + t : ℤ) : ℚ) / 2⌋) ∧
    (∀ (gp : List Iv) (pos : ℤ), mapto pos gp = [] → fetch_expression gp pos = "None") ∧
    ∀ (gp : List Iv) (pos : ℤ) (iv : Iv) (ivs : List Iv) (L0 : ℤ) (Lr : List ℤ),
      mapto pos gp = iv :: ivs → iv.labels = L0 :: Lr →
      fetch_expression gp pos = toString (firstMinAcc pos L0 Lr) ∧
      firstMinAcc pos L0 Lr ∈ iv.labels ∧
      (∀ q ∈ iv.labels, |pos - firstMinAcc pos L0 Lr| ≤ |pos - q|) ∧
      iv.labels.find? (fun q => decide (|pos - q| ≤ |pos - firstMinAcc pos L0 Lr|)) =
        some (firstMinAcc pos L0 Lr) := by
  refine ⟨?_, ?_, ?_, ?_⟩
  · intro peaks e_mean var gp
    unfold filter_peak
    rw [List.map_map]
    rfl
  · intro s t h
    rw [Int.tdiv_eq_ediv h (by norm_num)]
    rw [show ((s + t : ℤ) : ℚ) / 2 = ((s + t : ℤ) : ℚ) / ((2 : ℕ) : ℚ) by norm_num]
    rw [Rat.floor_intCast_div_natCast]
    norm_num
  · intro gp pos h
    unfold fetch_expression
    rw [h]
  · intro gp pos iv ivs L0 Lr hmap hlab
    have e1 : fetch_expression gp pos = nearestLoop pos iv.labels := by
      unfold fetch_expression
      rw [hmap]
    refine ⟨?_, ?_, ?_, ?_⟩
    · rw [e1, hlab]
      unfold nearestLoop
      rw [List.foldl_cons,
        show nearStep pos ("", none) L0 = (toString L0, some |pos - L0|) from rfl,
        nearStep_fold pos Lr L0]
    · rw [hlab]
      rcases (firstMinAcc_min pos Lr L0).1 with h1 | h1
      · exact (by rw [h1]; exact List.mem_cons_self L0 Lr)
      · exact List.mem_cons_of_mem L0 h1
    · intro q hq
      rw [hlab] at hq
      rcases List.mem_cons.mp hq with h | hq
      · rw [h]
        exact (firstMinAcc_min pos Lr L0).2.1
      · exact (firstMinAcc_min pos Lr L0).2.2 q hq
    · rw [hlab]
      exact firstMinAcc_find pos Lr L0

/-- C8 witness: midpoint floor at 5 + 7, the `"None"` case on an empty
promoter set, and the tie between labels 150 and 250 at midpoint 200,
resolved in favour of the first-encountered label 150. -/
theorem claim_C8_nearest_promoter_witness :
    Int.tdiv ((5 : ℤ) + 7) 2 = ⌊(((5 : ℤ) + 7 : ℤ) : ℚ) / 2⌋ ∧
    fetch_expression [] 0 = "None" ∧
    (fetch_expression [⟨100, 300, [150, 250]⟩] 200 = toString (firstMinAcc 200 150 [250]) ∧
      firstMinAcc 200 150 [250] ∈ ([150, 250] : List ℤ) ∧
      (∀ q ∈ ([150, 250] : List ℤ), |200 - firstMinAcc 200 150 [250]| ≤ |(200 : ℤ) - q|) ∧
      ([150, 250] : List ℤ).find?
          (fun q => decide (|(200 : ℤ) - q| ≤ |200 - firstMinAcc 200 150 [250]|)) =
        some (firstMinAcc 200 150 [250])) := by
  refine ⟨claim_C8_nearest_promoter.2.1 5 7 (by norm_num),
    claim_C8_nearest_promoter.2.2.1 [] 0 rfl, ?_⟩
  exact claim_C8_nearest_promoter.2.2.2 [⟨100, 300, [150, 250]⟩] 200 ⟨100, 300, [150, 250]⟩ []
    150 [250] rfl rfl

/-- `pvalLE` is antisymmetric. -/
theorem pvalLE_antisymm (l : List ℚ) (i j : ℕ) (h1 : pvalLE l i j) (h2 : pvalLE l j i) :
    i = j := by
  rcases h1 with h1 | ⟨he1, hle1⟩ <;> rcases h2 with h2 | ⟨he2, hle2⟩
  · exact absurd h2 (not_lt.mpr (le_of_lt h1))
  · rw [he2] at h1
    exact absurd h1 (lt_irrefl _)
  · rw [he1] at h2
    exact absurd h2 (lt_irrefl _)
  · exact Nat.le_antisymm hle1 hle2

/-- `pvalLT` is the strict part of `pvalLE`. -/
theorem pvalLT_iff (l : List ℚ) (i j : ℕ) : pvalLT l i j ↔ pvalLE l i j ∧ i ≠ j := by
  unfold pvalLT pvalLE
  constructor
  · rintro (h | ⟨he, hlt⟩)
    · refine ⟨Or.inl h, ?_⟩
      rintro rfl
      exact lt_irrefl _ h
    · exact ⟨Or.inr ⟨he, le_of_lt hlt⟩, Nat.ne_of_lt hlt⟩
  · rintro ⟨h | ⟨he, hle⟩, hne⟩
    · exact Or.inl h
    · exact Or.inr ⟨he, lt_of_le_of_ne hle hne⟩

/-- `pvalLT` is irreflexive. -/
theorem pvalLT_irrefl (l : List ℚ) (i : ℕ) : ¬ pvalLT l i i := by
  rintro (h | ⟨-, h⟩) <;> exact lt_irrefl _ h

/-- In a sorted duplicate-free index list, the position of an index is the
number of entries strictly before it in the p-value order. -/
theorem sorted_indexOf_countP (l : List ℚ) :
    ∀ (L : List ℕ), L.Sorted (pvalLE l) → L.Nodup → ∀ i ∈ L,
      L.indexOf i = L.countP (fun j => decide (pvalLT l j i))
  | [], _, _, i, hi => by cases hi
  | x :: L, hs, hn, i, hi => by
      rw [List.sorted_cons] at hs
      obtain ⟨hx, hs'⟩ := hs
      rw [List.nodup_cons] at hn
      obtain ⟨hxn, hn'⟩ := hn
      rw [List.countP_cons]
      by_cases hxi : x = i
      · subst hxi
        rw [List.indexOf_cons_self]
        rw [if_neg (by simpa using pvalLT_irrefl l x)]
        have hz : L.countP (fun j => decide (pvalLT l j x)) = 0 := by
          rw [List.countP_eq_zero]
          intro a ha
          simp only [decide_eq_true_eq]
          intro hlt
          have hle := (pvalLT_iff l a x).mp hlt
          exact hle.2 (pvalLE_antisymm l a x hle.1 (hx a ha))
        omega
      · have hiL : i ∈ L := by
          rcases List.mem_cons.mp hi with h | h
          · exact absurd h.symm hxi
          · exact h
        rw [List.indexOf_cons_ne _ hxi]
        have hcond : (fun j => decide (pvalLT l j i)) x = true := by
          simp only [decide_eq_true_eq]
          exact (pvalLT_iff l x i).mpr ⟨hx i hiL, hxi⟩
        rw [if_pos hcond]
        rw [sorted_indexOf_countP l L hs' hn' i hiL]

/-- The rank of index `i` is the number of indices strictly before it in
the ascending p-value order (ties by index). -/
theorem rankOf_count (l : List ℚ) (i : ℕ) (h : i < l.length) :
    rankOf l i = ((List.range l.length).filter (fun j => decide (pvalLT l j i))).length := by
  have hperm : List.Perm (argsort l) (List.range l.length) := List.perm_insertionSort _ _
  have hsorted : List.Sorted (pvalLE l) (argsort l) := List.sorted_insertionSort _ _
  have hnodup : (argsort l).Nodup := hperm.nodup_iff.mpr (List.nodup_range _)
  have hmem : i ∈ argsort l := hperm.mem_iff.mpr (List.mem_range.mpr h)
  unfold rankOf
  rw [sorted_indexOf_countP l (argsort l) hsorted hnodup i hmem]
  rw [hperm.countP_eq]
  rw [List.countP_eq_length_filter]

unseal Rat.mul Rat.inv Rat.add Rat.sub in
/-- C1: every q-value is `p * total / (rank + 1)` where the rank is the
index's position in the ascending p-value order with ties resolved by
argsort index; on `[0.01, 0.2, 0.03, 0.04]` each q-value is exactly
`p * 4 / (rank + 1)`; the output is neither clamped at 1 (witness
`[0.9, 0.95]`, whose first q-value is 1.8) nor monotone in p (witness
`[0.1, 0.11, 0.5]`, where a larger p-value gets a smaller q-value). -/
theorem claim_C1_qvalue_formula :
    (∀ (pvalue : List ℚ) (i : ℕ), i < pvalue.length →
      (qvalue pvalue).getD i 0 =
          pvalue.getD i 0 * (pvalue.length : ℚ) / ((rankOf pvalue i : ℚ) + 1) ∧
        rankOf pvalue i =
          ((List.range pvalue.length).filter (fun j => decide (pvalLT pvalue j i))).length) ∧
    qvalue [1/100, 1/5, 3/100, 1/25] =
      [1/100 * 4 / 1, 1/5 * 4 / 4, 3/100 * 4 / 2, 1/25 * 4 / 3] ∧
    (qvalue [9/10, 19/20] = [9/5, 19/20] ∧ (1 : ℚ) < 9/5) ∧
    (qvalue [1/10, 11/100, 1/2] = [3/10, 33/200, 1/2] ∧
      (1/10 : ℚ) < 11/100 ∧ (33/200 : ℚ) < 3/10) := by
  refine ⟨?_, by decide, by decide, by decide⟩
  intro pvalue i h
  refine ⟨?_, rankOf_count pvalue i h⟩
  unfold qvalue
  rw [List.getD_eq_getElem?_getD, List.getElem?_map, List.getElem?_range h]
  rfl

/-- C1 witness: the formula and the rank characterisation instantiated at
the first entry of the example list. -/
theorem claim_C1_qvalue_formula_witness :
    (qvalue [1/100, 1/5, 3/100, 1/25]).getD 0 0 =
        ([1/100, 1/5, 3/100, 1/25] : List ℚ).getD 0 0 *
          (([1/100, 1/5, 3/100, 1/25] : List ℚ).length : ℚ) /
          ((rankOf [1/100, 1/5, 3/100, 1/25] 0 : ℚ) + 1) ∧
      rankOf [1/100, 1/5, 3/100, 1/25] 0 =
        ((List.range ([1/100, 1/5, 3/100, 1/25] : List ℚ).length).filter
          (fun j => decide (pvalLT [1/100, 1/5, 3/100, 1/25] j 0))).length :=
  claim_C1_qvalue_formula.1 [1/100, 1/5, 3/100, 1/25] 0 (by norm_num)

/-- `updSpan` does not look at the promoter accumulator. -/
theorem updSpan_set_prom (s : PGState) (r : Row) (x : List Iv) :
    updSpan { s with gpromoter := x } r = { updSpan s r with gpromoter := x } := rfl

/-- `giOf` does not look at the promoter accumulator. -/
theorem giOf_set_prom (s : PGState) (x : List Iv) :
    giOf { s with gpromoter := x } = giOf s := rfl

/-- Folding span updates commutes with setting the promoter accumulator. -/
theorem foldl_updSpan_set_prom :
    ∀ (g : List Row) (s : PGState) (x : List Iv),
      g.foldl updSpan { s with gpromoter := x } = { g.foldl updSpan s with gpromoter := x }
  | [], _, _ => rfl
  | r :: g, s, x => by
      rw [List.foldl_cons, List.foldl_cons, updSpan_set_prom]
      exact foldl_updSpan_set_prom g (updSpan s r) x

/-- The gene record after folding the span updates of a row group: name,
chromosome and strand are kept, the span is the running min/max. -/
theorem giOf_foldl_updSpan :
    ∀ (g : List Row) (s : PGState),
      giOf (g.foldl updSpan s) =
        ⟨s.gname, s.gchr,
          g.foldl (fun a x => min a (x.start + 1)) s.gstart,
          g.foldl (fun a x => max a x.stop) s.gend,
          s.gstrand⟩
  | [], s => rfl
  | r :: g, s => by
      rw [List.foldl_cons, List.foldl_cons, List.foldl_cons, giOf_foldl_updSpan g (updSpan s r)]
      have h4 : (updSpan s r).gstart = min s.gstart (r.start + 1) := by
        show (if r.start + 1 < s.gstart then r.start + 1 else s.gstart) = _
        rcases le_or_lt s.gstart (r.start + 1) with h | h
        · rw [if_neg (not_lt.mpr h), min_eq_left h]
        · rw [if_pos h, min_eq_right (le_of_lt h)]
      have h5 : (updSpan s r).gend = max s.gend r.stop := by
        show (if r.stop > s.gend then r.stop else s.gend) = _
        rcases le_or_lt r.stop s.gend with h | h
        · rw [if_neg (not_lt.mpr h), max_eq_left h]
        · rw [if_pos h, max_eq_right (le_of_lt h)]
      rw [show (updSpan s r).gname = s.gname from rfl, show (updSpan s r).gchr = s.gchr from rfl,
        show (updSpan s r).gstrand = s.gstrand from rfl, h4, h5]

/-- Rows failing the chromosome filter do not influence `pgLoop`. -/
theorem pgLoop_filter (prom : ℤ) :
    ∀ (rows : List Row) (s : PGState),
      pgLoop prom s rows = pgLoop prom s (rows.filter (fun r => startsWithChr r.chrom))
  | [], _ => rfl
  | r :: rest, s => by
      rw [List.filter_cons]
      by_cases h : startsWithChr r.chrom = true
      · rw [if_pos h]
        conv_lhs => rw [pgLoop]
        conv_rhs => rw [pgLoop]
        rw [if_neg (not_not_intro h)]
        split_ifs <;> first
          | exact pgLoop_filter prom rest _
          | rw [pgLoop_filter prom rest]
      · rw [if_neg h]
        conv_lhs => rw [pgLoop]
        rw [if_pos h]
        exact pgLoop_filter prom rest s

/-- The yields of `pgLoop` started in a live gene state: one gene record
per maximal run of equal gene ids, the current run absorbed into the
state's span by min/max folding, rows assumed to pass the chromosome
filter and to have non-empty ids. -/
theorem pgLoop_grouped (prom : ℤ) :
    ∀ (rows : List Row) (s : PGState),
      s.gname ≠ "" →
      (∀ r ∈ rows, startsWithChr r.chrom = true) →
      (∀ r ∈ rows, r.gene_id ≠ "") →
      (pgLoop prom s rows).map (fun y => y.1) =
        giOf ((rows.takeWhile (fun x => decide (x.gene_id = s.gname))).foldl updSpan s) ::
          (geneGroups (rows.dropWhile (fun x => decide (x.gene_id = s.gname)))).map
            (fun g => specGene g.1 g.2)
  | [], s, _, _, _ => by
      rw [pgLoop, List.takeWhile_nil, List.dropWhile_nil, List.foldl_nil, geneGroups]
      rfl
  | r :: rest, s, hname, hchr, hids => by
      conv_lhs => rw [pgLoop]
      rw [if_neg (not_not_intro (hchr r (List.mem_cons_self r rest)))]
      have hchr' : ∀ x ∈ rest, startsWithChr x.chrom = true :=
        fun x hx => hchr x (List.mem_cons_of_mem r hx)
      have hids' : ∀ x ∈ rest, x.gene_id ≠ "" :=
        fun x hx => hids x (List.mem_cons_of_mem r hx)
      by_cases heq : r.gene_id = s.gname
      · rw [if_pos (Or.inl heq.symm), if_neg hname]
        have hstep : ({ s with
            gstart := if r.start + 1 < s.gstart then r.start + 1 else s.gstart,
            gend := if r.stop > s.gend then r.stop else s.gend,
            gpromoter := s.gpromoter ++ [promEntry prom r] } : PGState) =
            { updSpan s r with gpromoter := s.gpromoter ++ [promEntry prom r] } := rfl
        rw [hstep]
        rw [pgLoop_grouped prom rest { updSpan s r with
            gpromoter := s.gpromoter ++ [promEntry prom r] } hname hchr' hids']
        rw [show ({ updSpan s r with
            gpromoter := s.gpromoter ++ [promEntry prom r] } : PGState).gname = s.gname from rfl]
        rw [List.takeWhile_cons_of_pos (by simpa using heq),
          List.dropWhile_cons_of_pos (by simpa using heq)]
        rw [List.foldl_cons, foldl_updSpan_set_prom, giOf_set_prom]
      · have hcond : ¬ (s.gname = r.gene_id ∨ s.gname = "") := by
          rintro (h | h)
          · exact heq h.symm
          · exact hname h
        rw [if_neg hcond]
        rw [List.map_cons]
        rw [pgLoop_grouped prom rest
          ⟨r.gene_id, r.start + 1, r.stop, r.chrom, r.strand, [promEntry prom r]⟩
          (hids r (List.mem_cons_self r rest)) hchr' hids']
        rw [show (⟨r.gene_id, r.start + 1, r.stop, r.chrom, r.strand,
            [promEntry prom r]⟩ : PGState).gname = r.gene_id from rfl]
        rw [List.takeWhile_cons_of_neg (by simpa using heq),
          List.dropWhile_cons_of_neg (by simpa using heq)]
        rw [List.foldl_nil]
        rw [geneGroups]
        rw [List.map_cons]
        congr 1
        rw [show (⟨r.gene_id, r.start + 1, r.stop, r.chrom, r.strand,
            [promEntry prom r]⟩ : PGState) =
          { (⟨r.gene_id, r.start + 1, r.stop, r.chrom, r.strand, []⟩ : PGState) with
            gpromoter := [promEntry prom r] } from rfl]
        rw [foldl_updSpan_set_prom, giOf_set_prom, giOf_foldl_updSpan]
        rfl

/-- C4: on a flat table whose kept rows are non-empty, `parse_gene` merges
each maximal run of rows sharing a gene id into one gene span with
start = min over the (1-based) starts and end = max over the ends, taking
id, chromosome and strand from the run's first row, and the trailing
`for ... else` clause flushes the last pending gene exactly once: the
yielded gene records are exactly one per run, the last included. -/
theorem claim_C4_flat_table_merge_and_flush :
    ∀ (rows : List Row) (prom : ℤ),
      (∀ r ∈ rows, r.gene_id ≠ "") →
      rows.filter (fun r => startsWithChr r.chrom) ≠ [] →
      (parse_gene_ref rows prom).map (fun y => y.1) =
        (geneGroups (rows.filter (fun r => startsWithChr r.chrom))).map
          (fun g => specGene g.1 g.2) := by
  intro rows prom hids hne
  unfold parse_gene_ref
  rw [pgLoop_filter prom rows]
  obtain ⟨r0, rest0, h0⟩ := List.exists_cons_of_ne_nil hne
  rw [h0]
  have hmem : ∀ x ∈ r0 :: rest0, x ∈ rows.filter (fun r => startsWithChr r.chrom) := by
    rw [h0]
    exact fun x hx => hx
  have hchr : ∀ x ∈ r0 :: rest0, startsWithChr x.chrom = true :=
    fun x hx => (List.mem_filter.mp (hmem x hx)).2
  have hids' : ∀ x ∈ r0 :: rest0, x.gene_id ≠ "" :=
    fun x hx => hids x (List.mem_filter.mp (hmem x hx)).1
  conv_lhs => rw [pgLoop]
  rw [if_neg (not_not_intro (hchr r0 (List.mem_cons_self r0 rest0)))]
  rw [if_pos (Or.inr rfl), if_pos rfl]
  rw [pgLoop_grouped prom rest0
    ⟨r0.gene_id, r0.start + 1, r0.stop, r0.chrom, r0.strand,
      ([] : List Iv) ++ [promEntry prom r0]⟩
    (hids' r0 (List.mem_cons_self r0 rest0))
    (fun x hx => hchr x (List.mem_cons_of_mem r0 hx))
    (fun x hx => hids' x (List.mem_cons_of_mem r0 hx))]
  rw [show (⟨r0.gene_id, r0.start + 1, r0.stop, r0.chrom, r0.strand,
      ([] : List Iv) ++ [promEntry prom r0]⟩ : PGState).gname = r0.gene_id from rfl]
  rw [geneGroups]
  rw [List.map_cons]
  congr 1
  rw [show (⟨r0.gene_id, r0.start + 1, r0.stop, r0.chrom, r0.strand,
      ([] : List Iv) ++ [promEntry prom r0]⟩ : PGState) =
    { (⟨r0.gene_id, r0.start + 1, r0.stop, r0.chrom, r0.strand, []⟩ : PGState) with
      gpromoter := ([] : List Iv) ++ [promEntry prom r0] } from rfl]
  rw [foldl_updSpan_set_prom, giOf_set_prom, giOf_foldl_updSpan]
  rfl

/-- C4 witness: two rows of gene g1 merge to span [50, 200], and the final
gene g2 is flushed exactly once; a row on a non-`chr` chromosome is
ignored. -/
theorem claim_C4_flat_table_merge_and_flush_witness :
    (parse_gene_ref
        [⟨"g1", "chr1", "+", 99, 200⟩, ⟨"g1", "chr1", "+", 49, 150⟩,
          ⟨"g2", "chr1", "-", 300, 400⟩, ⟨"g3", "scaf", "+", 1, 2⟩] 10).map (fun y => y.1) =
      (geneGroups
        (([⟨"g1", "chr1", "+", 99, 200⟩, ⟨"g1", "chr1", "+", 49, 150⟩,
          ⟨"g2", "chr1", "-", 300, 400⟩, ⟨"g3", "scaf", "+", 1, 2⟩] : List Row).filter
            (fun r => startsWithChr r.chrom))).map (fun g => specGene g.1 g.2) :=
  claim_C4_flat_table_merge_and_flush
    [⟨"g1", "chr1", "+", 99, 200⟩, ⟨"g1", "chr1", "+", 49, 150⟩,
      ⟨"g2", "chr1", "-", 300, 400⟩, ⟨"g3", "scaf", "+", 1, 2⟩] 10
    (by decide) (by decide)

end CallPeak
